import Mathlib

set_option linter.unusedVariables false

/-!
Verification of the autotrader core (`src/robot/stock_frame.py`,
`src/robot/indicator.py`) against its natural-language specification.

The pandas `DataFrame` with multi-index `(symbol, datetime)` is embedded as an
association list of rows sorted by key.  Prices are embedded as rationals,
timestamps as integers (epoch milliseconds; `pd.to_datetime(_, unit="ms")` is a
strictly monotone injection defined on all integers, so ordering facts
transfer and negative inputs parse to pre-1970 datetimes without error).
Python statements that raise are embedded in `Except PyError`; a statement
that raises unconditionally is an `Except.error` whose doc comment cites the
offending source line.
-/

namespace Autotrader

/-! ## Definitions -/

/-- Lexicographic strict order on lists of characters, as pandas compares the
string level of a sorted multi-index. -/
def dataLt : List Char → List Char → Prop
  | [], [] => False
  | [], _ :: _ => True
  | _ :: _, [] => False
  | a :: as, b :: bs => a < b ∨ (a = b ∧ dataLt as bs)

instance : DecidableRel dataLt := fun a b => by
  match a, b with
  | [], [] => exact isFalse (by simp [dataLt])
  | [], _ :: _ => exact isTrue (by simp [dataLt])
  | _ :: _, [] => exact isFalse (by simp [dataLt])
  | a :: as, b :: bs =>
    have : Decidable (dataLt as bs) := instDecidableRelListCharDataLt as bs
    exact decidable_of_iff (a < b ∨ (a = b ∧ dataLt as bs)) (by simp [dataLt])

/-- Strict lexicographic order on strings (symbol names). -/
def strLt (a b : String) : Prop := dataLt a.data b.data

instance : DecidableRel strLt := fun a b => by unfold strLt; infer_instance

/-- Instrument identifier (ticker string). -/
abbrev Symbol := String

/-- Multi-index key of a frame row: `(symbol, datetime)`
(`_set_multiple_index`, `stock_frame.py` line 150). -/
abbrev Key := Symbol × Int

/-- Strict lexicographic order on `(symbol, datetime)` keys, the order
established by `self.frame.sort_index()` (`stock_frame.py` line 211). -/
def keyLt (a b : Key) : Prop := strLt a.1 b.1 ∨ (a.1 = b.1 ∧ a.2 < b.2)

instance : DecidableRel keyLt := fun a b => by unfold keyLt; infer_instance

/-- Reflexive closure of `keyLt`; the (total) order used for sorting. -/
def keyLe (a b : Key) : Prop := keyLt a b ∨ a = b

instance : DecidableRel keyLe := fun a b => by unfold keyLe; infer_instance

/-- One OHLCV observation pushed by the collaborator: the inner dict of the
`add_rows` input `{symbol: {"datetime": ..., "open": ..., ...}}`
(`stock_frame.py` lines 185–202). -/
structure Quote where
  datetime : Int
  open_ : Rat
  close : Rat
  high : Rat
  low : Rat
  volume : Rat
deriving DecidableEq

/-- One frame row: the five raw OHLCV columns written by `add_rows`
(`column_names`, `stock_frame.py` line 183) plus any derived indicator
columns (`extra`), stored as column-name/value pairs. -/
structure Row where
  open_ : Rat
  close : Rat
  high : Rat
  low : Rat
  volume : Rat
  extra : List (String × Rat)
deriving DecidableEq

/-- The multi-indexed DataFrame `StockFrame._frame`: rows keyed by
`(symbol, datetime)`, kept sorted by `sort_index()`. -/
abbrev Frame := List (Key × Row)

/-- Row order used by `sort_index()`: compare on the `(symbol, datetime)`
multi-index. -/
def entLe (a b : Key × Row) : Prop := keyLe a.1 b.1

instance : DecidableRel entLe := fun a b => by unfold entLe; infer_instance

/-- Index membership test backing the `self.frame.loc[row_id, ...]` write:
pandas updates in place when `row_id` is already in the index and enlarges
the frame otherwise. -/
def containsKey (k : Key) : Frame → Bool
  | [] => false
  | e :: es => decide (e.1 = k) || containsKey k es

/-- Effect of `self.frame.loc[row_id, column_names] = new_row.values` on an
existing row (`stock_frame.py` line 208): exactly the five raw columns are
overwritten; every other column of the row (`extra`) is untouched. -/
def updateQuote (r : Row) (q : Quote) : Row :=
  { r with open_ := q.open_, close := q.close, high := q.high, low := q.low,
           volume := q.volume }

/-- Effect of the same `.loc` write when `row_id` is new: a row holding the
five raw columns is appended; no indicator column is present on it. -/
def newRow (q : Quote) : Row :=
  { open_ := q.open_, close := q.close, high := q.high, low := q.low,
    volume := q.volume, extra := [] }

/-- `self.frame.loc[row_id, column_names] = new_row.values`
(`stock_frame.py` line 208): upsert of one row at key `k`. -/
def locSet (f : Frame) (k : Key) (q : Quote) : Frame :=
  if containsKey k f then
    f.map (fun e => if e.1 = k then (e.1, updateQuote e.2 q) else e)
  else
    f ++ [(k, newRow q)]

/-- One iteration of the `for quote in data` loop of `add_rows`
(`stock_frame.py` lines 185–211): parse the timestamp, upsert the row at
`(quote, time_stamp)`, then `self.frame.sort_index(inplace=True)`. -/
def addQuote (f : Frame) (sq : Symbol × Quote) : Frame :=
  List.insertionSort entLe (locSet f (sq.1, sq.2.datetime) sq.2)

/-- `StockFrame.add_rows` (`stock_frame.py` lines 154–211).  The `data`
argument is iterated as a dict keyed by symbol (`for quote in data:` with
`data[quote][...]`); each entry is upserted and the frame re-sorted. -/
def add_rows (f : Frame) (data : List (Symbol × Quote)) : Frame :=
  data.foldl addQuote f

/-- The rows of one group of `StockFrame.symbol_groups`
(`stock_frame.py` lines 50–69): `self._frame.groupby(by="symbol",
as_index=False, sort=True)` collects, for symbol `s`, exactly the rows whose
index has symbol `s`, in frame order. -/
def symbol_groups (f : Frame) (s : Symbol) : List (Key × Row) :=
  f.filter (fun e => decide (e.1.1 = s))

/-- Invariant of the stored frame: rows strictly increasing in the
`(symbol, datetime)` key.  Established by `sort_index()` plus uniqueness of
the multi-index. -/
def Ordered (f : Frame) : Prop := f.Pairwise (fun a b => keyLt a.1 b.1)

instance : DecidablePred Ordered := fun f => by unfold Ordered; infer_instance

/-! ### IndicatorEngine operations

`indicator.py` computes indicator columns per symbol group via
`self._price_groups[column].transform(lambda x: ...)`: the per-group lambda
sees exactly one instrument's column, and its output is aligned 1:1 with
that group's rows.  Several indicator methods contain statements that raise
unconditionally before any column is computed; those statements are embedded
as `Except.error` values, with the dead remainder of the body elided. -/

/-- Python runtime errors raised by the broken indicator code paths. -/
inductive PyError where
  | typeError
  | attributeError
  | keyError
deriving DecidableEq

/-- Column of raw values the per-group lambda receives: the `col` field of
each of symbol `s`'s rows, in timestamp order. -/
def groupColumn (col : Row → Rat) (f : Frame) (s : Symbol) : List Rat :=
  (symbol_groups f s).map (fun e => col e.2)

/-- The `groupby(...)[column].transform(lambda x: g x)` pattern
(`indicator.py` lines 153–155, 204–221, 279–281, 327–329): the derived
column for symbol `s` is the per-group function applied to that symbol's
raw column alone. -/
def transformColumn (g : List Rat → List (Option Rat)) (col : Row → Rat)
    (f : Frame) (s : Symbol) : List (Option Rat) :=
  g (groupColumn col f s)

/-- Per-group computation of `indicator.py` line 280:
`x.rolling(window=period).mean()` — the mean of the trailing `period`
values, absent (`NaN`) while fewer than `period` observations exist. -/
def rollingMean (period : Nat) (xs : List Rat) : List (Option Rat) :=
  (List.range xs.length).map (fun i =>
    if 0 < period ∧ period ≤ i + 1 then
      some (((xs.take (i + 1)).drop (i + 1 - period)).sum / period)
    else none)

/-- Per-group computation of `indicator.py` line 154 (`change_in_price`):
`x.diff()` — first difference, absent at index 0. -/
def diffColumn (xs : List Rat) : List (Option Rat) :=
  (List.range xs.length).map (fun i =>
    if i = 0 then none else some (xs.getD i 0 - xs.getD (i - 1) 0))

/-- `Indicator.relative_strength_index` (`indicator.py` lines 159–241).
Line 191 binds `locals_data = locals` — the builtin function object itself,
the call parentheses are missing — so line 192's `del locals_data["self"]`
attempts item deletion on a function and raises `TypeError` before anything
else runs.  The rest of the body is unreachable (and itself broken: the
`tranform` attribute typos at lines 204/209 would raise `AttributeError`,
and line 235 reads the nonexistent attribute `self._iframe`). -/
def relative_strength_index (period : Nat) (method : String) (f : Frame) :
    Except PyError Frame := do
  Except.error PyError.typeError
  pure f

/-- RSI formula of `indicator.py` line 227 as written:
`relative_strength_index = 100.0 - ((100 / 1) + relative_strength)`,
which is `-relative_strength`, not `100 - 100/(1 + relative_strength)`. -/
def rsi_line227 (relative_strength : Rat) : Rat :=
  100 - ((100 / 1) + relative_strength)

/-- Edge-case branch of `indicator.py` lines 230–232 as written:
`np.where(relative_strength_index == 0, 100, relative_strength_index)` —
it tests the RSI value against 0, not `avg_down` against 0. -/
def rsi_line230 (v : Rat) : Rat := if v = 0 then 100 else v

/-- `Indicator.simple_moving_average` (`indicator.py` lines 243–283).
Line 276 stores `self.simple_moving_average()` — calling the method with its
required positional argument `period` missing, instead of referencing it as
line 150 does for `change_in_price` — raising `TypeError` before the
rolling-mean computation at line 280 is reached. -/
def simple_moving_average (period : Nat) (f : Frame) :
    Except PyError Frame := do
  Except.error PyError.typeError
  pure f

/-- `Indicator.exponential_moving_average` (`indicator.py` lines 285–331).
Lines 322–324 store `self.exponential_moving_average()` — again a call with
the required `period` argument missing — raising `TypeError`.  The `alpha`
parameter is never read anywhere in the body, and the computation at lines
327–329 (`x.ewa(span=period)`, a typo for `ewm`, over the nonexistent
`closing` column) is unreachable. -/
def exponential_moving_average (period : Nat) (alpha : Rat) (f : Frame) :
    Except PyError Frame := do
  Except.error PyError.typeError
  pure f

/-- One registered signal rule (`Indicator.set_indicators`, `indicator.py`
lines 96–104): buy/sell thresholds and comparison operators. -/
structure SignalRule where
  buy : Rat
  sell : Rat
  buyOperator : Rat → Rat → Bool
  sellOperator : Rat → Rat → Bool

/-- `StockFrame._check_signals` (`stock_frame.py` lines 239–258): the body is
`pass`, so every call returns `None` — no events and no error, for every
store state, including instruments with zero bars. -/
def _check_signals (indicators : List (String × SignalRule)) (f : Frame) :
    Option Frame :=
  none

/-- `Indicator.check_singals` (`indicator.py` lines 352–359): it evaluates
`self._stock_frame._check_singals` — `StockFrame` has no attribute
`_check_singals` (the method is spelled `_check_signals`) — raising
`AttributeError` before any evaluation happens; the attributes
`self._indicators_comp_key` and `self._indicators_key` it would pass are
also never assigned anywhere. -/
def check_singals (signals : List (String × SignalRule)) (f : Frame) :
    Except PyError (Option Frame) :=
  Except.error PyError.attributeError

/-- Stored registration of one indicator
(`self._current_indicators[column_name]`, e.g. `indicator.py` lines
147–150): the captured argument dict and the name of the stored function. -/
structure IndicatorEntry where
  args : List (String × Int)
  funcName : String
deriving DecidableEq

/-- Python dict assignment `d[k] = v`: replace the value at an existing key,
else append the new key at the end (dicts preserve insertion order). -/
def dictSet {β : Type} (d : List (String × β)) (k : String) (v : β) :
    List (String × β) :=
  if d.any (fun e => decide (e.1 = k)) then
    d.map (fun e => if e.1 = k then (k, v) else e)
  else
    d ++ [(k, v)]

/-- Registration step shared by the indicator methods:
`self._current_indicators[column_name] = {...}` (`indicator.py` lines
147–150) — a plain dict write keyed by the output column name. -/
def registerIndicator (reg : List (String × IndicatorEntry)) (name : String)
    (entry : IndicatorEntry) : List (String × IndicatorEntry) :=
  dictSet reg name entry

/-- `Indicator.refresh` (`indicator.py` lines 333–350): when at least one
indicator is registered, the first loop iteration evaluates
`self._current_indicators.indicator["args"]` — a Python dict has no
attribute `indicator` (a slip for `self._current_indicators[indicator]`) —
raising `AttributeError`; with an empty registry the loop never runs and
nothing is recomputed. -/
def refresh (reg : List (String × IndicatorEntry)) : Except PyError Unit :=
  match reg with
  | [] => Except.ok ()
  | _ :: _ => Except.error PyError.attributeError

/-! ### Concrete data for witnesses -/

/-- Example row with one previously computed indicator column. -/
def exRowA : Row :=
  { open_ := 10, close := 11, high := 12, low := 9, volume := 100,
    extra := [("sma", 10)] }

/-- Example row without indicator columns. -/
def exRowB : Row :=
  { open_ := 20, close := 21, high := 22, low := 19, volume := 200, extra := [] }

/-- Example two-row frame for instrument `"X"`. -/
def exF2 : Frame := [(("X", 1), exRowA), (("X", 2), exRowB)]

/-- Example quote re-inserting the key `("X", 2)` with different prices. -/
def exQ2 : Quote :=
  { datetime := 2, open_ := 7, close := 8, high := 9, low := 6, volume := 300 }

/-- Example quote re-inserting the key `("X", 1)` with different prices. -/
def exQ1 : Quote :=
  { datetime := 1, open_ := 30, close := 31, high := 32, low := 29,
    volume := 400 }

/-- Example quote with a negative epoch-millisecond timestamp. -/
def qNeg : Quote :=
  { datetime := -1, open_ := 1, close := 2, high := 3, low := 0, volume := 50 }

/-- Example frame holding the same `"X"` bars as `exF2` plus a bar of another
instrument `"B"`. -/
def exFB : Frame := exF2 ++ [(("B", 5), exRowB)]

/-! ## Theorems -/

theorem dataLt_irrefl : ∀ l, ¬ dataLt l l := by
  intro l
  induction l with
  | nil => simp [dataLt]
  | cons a as ih => simp [dataLt, ih]

theorem dataLt_trans : ∀ {x y z}, dataLt x y → dataLt y z → dataLt x z := by
  intro x
  induction x with
  | nil =>
    intro y z hxy hyz
    cases y with
    | nil => exact absurd hxy (dataLt_irrefl [])
    | cons b bs =>
      cases z with
      | nil => exact absurd hyz (by simp [dataLt])
      | cons c cs => simp [dataLt]
  | cons a as ih =>
    intro y z hxy hyz
    cases y with
    | nil => exact absurd hxy (by simp [dataLt])
    | cons b bs =>
      cases z with
      | nil => exact absurd hyz (by simp [dataLt])
      | cons c cs =>
        rcases hxy with h1 | ⟨rfl, h1⟩
        · rcases hyz with h2 | ⟨rfl, h2⟩
          · exact Or.inl (lt_trans h1 h2)
          · exact Or.inl h1
        · rcases hyz with h2 | ⟨rfl, h2⟩
          · exact Or.inl h2
          · exact Or.inr ⟨rfl, ih h1 h2⟩

theorem dataLt_total : ∀ x y, dataLt x y ∨ x = y ∨ dataLt y x := by
  intro x
  induction x with
  | nil =>
    intro y
    cases y with
    | nil => exact Or.inr (Or.inl rfl)
    | cons b bs => exact Or.inl (by simp [dataLt])
  | cons a as ih =>
    intro y
    cases y with
    | nil => exact Or.inr (Or.inr (by simp [dataLt]))
    | cons b bs =>
      rcases lt_trichotomy a b with h | rfl | h
      · exact Or.inl (Or.inl h)
      · rcases ih bs with h2 | rfl | h2
        · exact Or.inl (Or.inr ⟨rfl, h2⟩)
        · exact Or.inr (Or.inl rfl)
        · exact Or.inr (Or.inr (Or.inr ⟨rfl, h2⟩))
      · exact Or.inr (Or.inr (Or.inl h))

theorem strLt_irrefl (a : String) : ¬ strLt a a := dataLt_irrefl a.data

theorem strLt_trans {a b c : String} : strLt a b → strLt b c → strLt a c :=
  dataLt_trans

theorem strLt_total (a b : String) : strLt a b ∨ a = b ∨ strLt b a := by
  rcases dataLt_total a.data b.data with h | h | h
  · exact Or.inl h
  · exact Or.inr (Or.inl (by cases a; cases b; exact congrArg String.mk h))
  · exact Or.inr (Or.inr h)

theorem keyLt_irrefl (a : Key) : ¬ keyLt a a := by
  rintro (h | ⟨-, h⟩)
  · exact strLt_irrefl _ h
  · exact lt_irrefl _ h

theorem keyLt_trans {a b c : Key} : keyLt a b → keyLt b c → keyLt a c := by
  rintro (h1 | ⟨e1, h1⟩) (h2 | ⟨e2, h2⟩)
  · exact Or.inl (strLt_trans h1 h2)
  · exact Or.inl (e2 ▸ h1)
  · exact Or.inl (e1 ▸ h2)
  · exact Or.inr ⟨e1.trans e2, lt_trans h1 h2⟩

theorem keyLt_of_keyLe_of_ne {a b : Key} (h : keyLe a b) (hne : a ≠ b) :
    keyLt a b := by
  rcases h with h | rfl
  · exact h
  · exact absurd rfl hne

theorem keyLe_total (a b : Key) : keyLe a b ∨ keyLe b a := by
  rcases strLt_total a.1 b.1 with h | h | h
  · exact Or.inl (Or.inl (Or.inl h))
  · rcases lt_trichotomy a.2 b.2 with h2 | h2 | h2
    · exact Or.inl (Or.inl (Or.inr ⟨h, h2⟩))
    · exact Or.inl (Or.inr (Prod.ext h h2))
    · exact Or.inr (Or.inl (Or.inr ⟨h.symm, h2⟩))
  · exact Or.inr (Or.inl (Or.inl h))

theorem keyLe_trans {a b c : Key} : keyLe a b → keyLe b c → keyLe a c := by
  rintro (h1 | rfl) (h2 | rfl)
  · exact Or.inl (keyLt_trans h1 h2)
  · exact Or.inl h1
  · exact Or.inl h2
  · exact Or.inr rfl

instance : IsTotal (Key × Row) entLe := ⟨fun a b => keyLe_total a.1 b.1⟩

instance : IsTrans (Key × Row) entLe := ⟨fun _ _ _ => keyLe_trans⟩

theorem Ordered.keysNodup {f : Frame} (h : Ordered f) :
    f.Pairwise (fun a b => a.1 ≠ b.1) := by
  refine h.imp ?_
  intro a b hab he
  exact keyLt_irrefl b.1 (he ▸ hab)

theorem not_containsKey_iff {k : Key} {f : Frame} :
    containsKey k f = false ↔ ∀ e ∈ f, e.1 ≠ k := by
  induction f with
  | nil => simp [containsKey]
  | cons e es ih => simp [containsKey, ih]

theorem containsKey_iff {k : Key} {f : Frame} :
    containsKey k f = true ↔ ∃ e ∈ f, e.1 = k := by
  induction f with
  | nil => simp [containsKey]
  | cons e es ih =>
    simp only [containsKey, Bool.or_eq_true, decide_eq_true_eq, ih]
    constructor
    · rintro (h | ⟨e', he', h⟩)
      · exact ⟨e, List.mem_cons_self e es, h⟩
      · exact ⟨e', List.mem_cons_of_mem e he', h⟩
    · rintro ⟨e', he', h⟩
      rcases List.mem_cons.mp he' with rfl | he'
      · exact Or.inl h
      · exact Or.inr ⟨e', he', h⟩

/-- The upsert never disturbs key distinctness. -/
theorem locSet_keysPairwiseNe {f : Frame}
    (h : f.Pairwise (fun a b => a.1 ≠ b.1)) (k : Key) (q : Quote) :
    (locSet f k q).Pairwise (fun a b => a.1 ≠ b.1) := by
  unfold locSet
  split
  · refine (List.pairwise_map.mpr ?_)
    refine h.imp ?_
    intro a b hne
    have hfst : ∀ e : Key × Row,
        (if e.1 = k then (e.1, updateQuote e.2 q) else e).1 = e.1 := by
      intro e
      split <;> rfl
    simpa [hfst a, hfst b] using hne
  · next hnc =>
    rw [List.pairwise_append]
    refine ⟨h, List.pairwise_singleton _ _, ?_⟩
    intro a ha b hb
    rcases List.mem_singleton.mp hb with rfl
    exact (not_containsKey_iff.mp (Bool.not_eq_true _ ▸ hnc)) a ha

/-- Sortedness plus distinct keys gives the strict invariant. -/
theorem ordered_of_sorted_of_keysPairwiseNe {f : Frame}
    (hs : List.Sorted entLe f) (hn : f.Pairwise (fun a b => a.1 ≠ b.1)) :
    Ordered f := by
  refine (hs.and hn).imp ?_
  rintro a b ⟨hle, hne⟩
  exact keyLt_of_keyLe_of_ne hle hne

/-- Key distinctness survives sorting (it is a permutation). -/
theorem keysPairwiseNe_insertionSort {f : Frame}
    (h : f.Pairwise (fun a b => a.1 ≠ b.1)) :
    (List.insertionSort entLe f).Pairwise (fun a b => a.1 ≠ b.1) := by
  have hperm : List.Perm ((List.insertionSort entLe f).map Prod.fst)
      (f.map Prod.fst) :=
    (List.perm_insertionSort entLe f).map Prod.fst
  have hn : (f.map Prod.fst).Nodup := List.pairwise_map.mpr h
  have : ((List.insertionSort entLe f).map Prod.fst).Nodup :=
    hperm.nodup_iff.mpr hn
  exact List.pairwise_map.mp this

/-- One loop iteration of `add_rows` preserves the invariant. -/
theorem Ordered.addQuote {f : Frame} (h : Ordered f) (sq : Symbol × Quote) :
    Ordered (addQuote f sq) := by
  unfold Autotrader.addQuote
  refine ordered_of_sorted_of_keysPairwiseNe
    (List.sorted_insertionSort entLe _) ?_
  exact keysPairwiseNe_insertionSort (locSet_keysPairwiseNe h.keysNodup _ _)

/-- `add_rows` preserves the invariant. -/
theorem Ordered.add_rows {f : Frame} (h : Ordered f)
    (data : List (Symbol × Quote)) : Ordered (add_rows f data) := by
  unfold Autotrader.add_rows
  induction data generalizing f with
  | nil => exact h
  | cons sq rest ih => exact ih (h.addQuote sq)

/-- The invariant holds for any frame built by repeated `add_rows` calls. -/
theorem ordered_foldl_add_rows (batches : List (List (Symbol × Quote))) :
    ∀ {f : Frame}, Ordered f → Ordered (batches.foldl add_rows f) := by
  induction batches with
  | nil =>
    intro f h
    exact h
  | cons b rest ih =>
    intro f h
    exact ih (h.add_rows b)

/-- In an invariant frame, each symbol's group is strictly increasing in
timestamp. -/
theorem Ordered.symbol_groups_timestamps {f : Frame} (h : Ordered f)
    (s : Symbol) :
    ((symbol_groups f s).map (fun e => e.1.2)).Pairwise (· < ·) := by
  have hflt : (symbol_groups f s).Pairwise (fun a b => keyLt a.1 b.1) :=
    h.sublist (List.filter_sublist f)
  have hmem : ∀ e ∈ symbol_groups f s, e.1.1 = s := by
    intro e he
    exact of_decide_eq_true (List.mem_filter.mp he).2
  refine List.pairwise_map.mpr ?_
  refine List.Pairwise.imp_of_mem ?_ hflt
  intro a b ha hb hab
  rcases hab with hlt | ⟨-, hlt⟩
  · rw [hmem a ha, hmem b hb] at hlt
    exact absurd hlt (strLt_irrefl s)
  · exact hlt

theorem Ordered.sorted {f : Frame} (h : Ordered f) : List.Sorted entLe f :=
  h.imp (fun hab => Or.inl hab)

/-- Mapping a key-preserving function keeps the frame sorted. -/
theorem sorted_map_of_keyPreserving {f : Frame} {g : Key × Row → Key × Row}
    (hg : ∀ e, (g e).1 = e.1) (hs : List.Sorted entLe f) :
    List.Sorted entLe (f.map g) := by
  refine List.pairwise_map.mpr (hs.imp ?_)
  intro a b hab
  show keyLe (g a).1 (g b).1
  rw [hg a, hg b]
  exact hab

/-- On a key already present in an invariant frame, one `add_rows` upsert is
exactly a pointwise row update: the sort is a no-op because keys are
unchanged. -/
theorem add_rows_existing_key {f : Frame} (h : Ordered f) {s : Symbol}
    {q : Quote} (hc : containsKey (s, q.datetime) f = true) :
    add_rows f [(s, q)] =
      f.map (fun e =>
        if e.1 = (s, q.datetime) then (e.1, updateQuote e.2 q) else e) := by
  have hfst : ∀ e : Key × Row,
      ((fun e =>
        if e.1 = (s, q.datetime) then (e.1, updateQuote e.2 q) else e) e).1
        = e.1 := by
    intro e
    dsimp only
    split <;> rfl
  have hstep : add_rows f [(s, q)] = addQuote f (s, q) := rfl
  rw [hstep]
  unfold addQuote locSet
  rw [if_pos hc]
  exact (sorted_map_of_keyPreserving hfst h.sorted).insertionSort_eq

/-- After one `add_rows` iteration, the inserted key is in the index. -/
theorem mem_keys_addQuote (f : Frame) (s : Symbol) (q : Quote) :
    (s, q.datetime) ∈ (addQuote f (s, q)).map Prod.fst := by
  unfold addQuote
  have hperm : List.Perm
      ((List.insertionSort entLe (locSet f (s, q.datetime) q)).map Prod.fst)
      ((locSet f (s, q.datetime) q).map Prod.fst) :=
    (List.perm_insertionSort entLe _).map Prod.fst
  refine hperm.mem_iff.mpr ?_
  unfold locSet
  split
  · next hc =>
    rcases containsKey_iff.mp hc with ⟨e, he, hek⟩
    refine List.mem_map.mpr ⟨(e.1, updateQuote e.2 q), ?_, hek⟩
    exact List.mem_map.mpr ⟨e, he, by rw [if_pos hek]⟩
  · simp

/-- Grouping commutes with a key-preserving row map. -/
theorem symbol_groups_map_keyPreserving {g : Key × Row → Key × Row}
    (hg : ∀ e, (g e).1 = e.1) (f : Frame) (s : Symbol) :
    symbol_groups (f.map g) s = (symbol_groups f s).map g := by
  unfold symbol_groups
  induction f with
  | nil => rfl
  | cons e es ih =>
    simp only [List.map_cons, List.filter_cons]
    rw [hg e]
    split
    · simp only [List.map_cons, ih]
    · exact ih

/-- Distinct keys make row membership at a key unique. -/
theorem eq_of_mem_of_keysPairwiseNe {f : Frame}
    (h : f.Pairwise (fun a b => a.1 ≠ b.1)) {a b : Key × Row}
    (ha : a ∈ f) (hb : b ∈ f) (hk : a.1 = b.1) : a = b := by
  induction f with
  | nil => cases ha
  | cons e es ih =>
    rcases List.pairwise_cons.mp h with ⟨he, hes⟩
    rcases List.mem_cons.mp ha with rfl | ha'
    · rcases List.mem_cons.mp hb with rfl | hb'
      · rfl
      · exact absurd hk (he b hb')
    · rcases List.mem_cons.mp hb with rfl | hb'
      · exact absurd hk.symm (he a ha')
      · exact ih hes ha' hb'

/-- Re-assigning the same dict key replaces the stored value: writing twice
equals writing only the last value. -/
theorem dictSet_dictSet {β : Type} (d : List (String × β)) (k : String)
    (v1 v2 : β) : dictSet (dictSet d k v1) k v2 = dictSet d k v2 := by
  unfold dictSet
  by_cases h : d.any (fun e => decide (e.1 = k)) = true
  · rw [if_pos h, if_pos h]
    have hany2 : (d.map (fun e => if e.1 = k then (k, v1) else e)).any
        (fun e => decide (e.1 = k)) = true := by
      rcases List.any_eq_true.mp h with ⟨e, he, hek⟩
      refine List.any_eq_true.mpr ⟨(k, v1), ?_, by simp⟩
      refine List.mem_map.mpr ⟨e, he, ?_⟩
      rw [if_pos (of_decide_eq_true hek)]
    rw [if_pos hany2, List.map_map]
    refine List.map_congr_left ?_
    intro e _
    by_cases hek : e.1 = k
    · simp [hek]
    · simp [hek]
  · rw [if_neg h, if_neg h]
    have hnone : ∀ e ∈ d, ¬ e.1 = k := by
      intro e he hek
      exact h (List.any_eq_true.mpr ⟨e, he, decide_eq_true hek⟩)
    have hany2 : (d ++ [(k, v1)]).any (fun e => decide (e.1 = k)) = true :=
      List.any_eq_true.mpr ⟨(k, v1), by simp, by simp⟩
    rw [if_pos hany2, List.map_append]
    have hmapid : d.map (fun e => if e.1 = k then (k, v2) else e) = d := by
      have hid : d.map (fun e => if e.1 = k then (k, v2) else e) = d.map id :=
        List.map_congr_left (fun e he => by rw [if_neg (hnone e he)]; rfl)
      rw [hid, List.map_id]
    rw [hmapid]
    simp

/-! ### Claim theorems -/

/-- C1: for every sequence of bar insertions via `StockFrame.add_rows`, in any
insertion order and with arbitrary `(symbol, timestamp)` keys, the
per-instrument grouping returned by `symbol_groups` presents each
instrument's bars as a sequence strictly increasing in timestamp, with no
duplicate timestamps. -/
theorem add_rows_symbol_groups_strictly_increasing
    (batches : List (List (Symbol × Quote))) (s : Symbol) :
    ((symbol_groups (batches.foldl add_rows ([] : Frame)) s).map
      (fun e => e.1.2)).Pairwise (· < ·) :=
  (ordered_foldl_add_rows batches List.Pairwise.nil).symbol_groups_timestamps s

/-- C2: inserting a bar whose `(instrument, timestamp)` key is already present
overwrites the stored OHLCV values at that key rather than creating a
duplicate row, leaving the length of that instrument's series unchanged. -/
theorem add_rows_existing_key_overwrites (f : Frame) (s : Symbol) (q : Quote)
    (hord : Ordered f) (hmem : containsKey (s, q.datetime) f = true) :
    (symbol_groups (add_rows f [(s, q)]) s).length
      = (symbol_groups f s).length ∧
    ∀ r : Row, ((s, q.datetime), r) ∈ add_rows f [(s, q)] →
      r.open_ = q.open_ ∧ r.close = q.close ∧ r.high = q.high ∧
      r.low = q.low ∧ r.volume = q.volume := by
  have hfst : ∀ e : Key × Row,
      ((fun e =>
        if e.1 = (s, q.datetime) then (e.1, updateQuote e.2 q) else e) e).1
        = e.1 := by
    intro e
    dsimp only
    split <;> rfl
  have heq := add_rows_existing_key hord hmem
  constructor
  · rw [heq, symbol_groups_map_keyPreserving hfst f s, List.length_map]
  · intro r hr
    rw [heq] at hr
    rcases List.mem_map.mp hr with ⟨e, _, hge⟩
    by_cases hek : e.1 = (s, q.datetime)
    · rw [if_pos hek] at hge
      have : updateQuote e.2 q = r := congrArg Prod.snd hge
      rw [← this]
      exact ⟨rfl, rfl, rfl, rfl, rfl⟩
    · rw [if_neg hek] at hge
      exact absurd (congrArg Prod.fst hge) hek

/-- C2 witness: the theorem applied to a concrete two-bar frame for `"X"` and
a quote that re-inserts key `("X", 2)` with different prices. -/
theorem add_rows_existing_key_overwrites_witness :
    Ordered exF2 ∧ containsKey ("X", exQ2.datetime) exF2 = true ∧
    ((symbol_groups (add_rows exF2 [("X", exQ2)]) "X").length
        = (symbol_groups exF2 "X").length ∧
      ∀ r : Row, (("X", exQ2.datetime), r) ∈ add_rows exF2 [("X", exQ2)] →
        r.open_ = exQ2.open_ ∧ r.close = exQ2.close ∧ r.high = exQ2.high ∧
        r.low = exQ2.low ∧ r.volume = exQ2.volume) :=
  ⟨by decide, by decide,
    add_rows_existing_key_overwrites exF2 "X" exQ2 (by decide) (by decide)⟩

/-- C6 counterexample: `add_rows` performs no timestamp validation, so a bar
with the negative timestamp `-1` is inserted successfully — the store does
not stay unchanged and no `OutOfRangeError` ever arises (the class raises no
such error; `pd.to_datetime` maps negative epoch milliseconds to a pre-1970
datetime). -/
theorem add_rows_negative_timestamp_inserts :
    (add_rows ([] : Frame) [("X", qNeg)]).length = 1 ∧
    (("X", (-1 : Int)), newRow qNeg) ∈ add_rows ([] : Frame) [("X", qNeg)] := by
  decide

/-- C6 amended: a bar with a negative timestamp is accepted by `add_rows`
exactly like any other bar: no error is raised, the bar's key enters the
index, and the per-instrument ordering invariant is preserved. -/
theorem add_rows_negative_timestamp_no_error (f : Frame) (s : Symbol)
    (q : Quote) (hord : Ordered f) (hneg : q.datetime < 0) :
    (s, q.datetime) ∈ (add_rows f [(s, q)]).map Prod.fst ∧
    Ordered (add_rows f [(s, q)]) :=
  ⟨mem_keys_addQuote f s q, hord.add_rows [(s, q)]⟩

/-- C6 amended witness: the amended theorem applied to the concrete frame
`exF2` and the negative-timestamp quote `qNeg`. -/
theorem add_rows_negative_timestamp_no_error_witness :
    Ordered exF2 ∧ qNeg.datetime < 0 ∧
    (("X", qNeg.datetime) ∈ (add_rows exF2 [("X", qNeg)]).map Prod.fst ∧
      Ordered (add_rows exF2 [("X", qNeg)])) :=
  ⟨by decide, by decide,
    add_rows_negative_timestamp_no_error exF2 "X" qNeg (by decide) (by decide)⟩

/-- C10: when `add_rows` upserts a bar at an existing `(instrument,
timestamp)` key, only the five columns open, close, high, low, volume of that
row are written: the row's previously computed indicator columns, and every
other row of the frame, are left unchanged, and no row is added or
removed. -/
theorem add_rows_existing_key_preserves_other_columns (f : Frame) (s : Symbol)
    (q : Quote) (r0 : Row) (hord : Ordered f)
    (hmem : ((s, q.datetime), r0) ∈ f) :
    (∀ e ∈ f, e.1 ≠ (s, q.datetime) → e ∈ add_rows f [(s, q)]) ∧
    ((s, q.datetime), updateQuote r0 q) ∈ add_rows f [(s, q)] ∧
    (∀ r : Row, ((s, q.datetime), r) ∈ add_rows f [(s, q)] →
      r.extra = r0.extra) ∧
    (add_rows f [(s, q)]).length = f.length := by
  have hc : containsKey (s, q.datetime) f = true :=
    containsKey_iff.mpr ⟨_, hmem, rfl⟩
  have heq := add_rows_existing_key hord hc
  refine ⟨?_, ?_, ?_, ?_⟩
  · intro e he hne
    rw [heq]
    refine List.mem_map.mpr ⟨e, he, ?_⟩
    rw [if_neg hne]
  · rw [heq]
    refine List.mem_map.mpr ⟨((s, q.datetime), r0), hmem, ?_⟩
    rw [if_pos rfl]
  · intro r hr
    rw [heq] at hr
    rcases List.mem_map.mp hr with ⟨e, he, hge⟩
    by_cases hek : e.1 = (s, q.datetime)
    · have he0 : e = ((s, q.datetime), r0) :=
        eq_of_mem_of_keysPairwiseNe hord.keysNodup he hmem hek
      rw [if_pos hek] at hge
      have hr0 : updateQuote e.2 q = r := congrArg Prod.snd hge
      rw [← hr0, he0]
      rfl
    · rw [if_neg hek] at hge
      exact absurd (congrArg Prod.fst hge) hek
  · rw [heq, List.length_map]

/-- C10 witness: the theorem applied to the concrete frame `exF2`, whose row
at `("X", 1)` carries a previously computed `sma` indicator column, with a
quote re-inserting key `("X", 1)`. -/
theorem add_rows_existing_key_preserves_other_columns_witness :
    Ordered exF2 ∧ (("X", exQ1.datetime), exRowA) ∈ exF2 ∧
    ((∀ e ∈ exF2, e.1 ≠ ("X", exQ1.datetime) → e ∈ add_rows exF2 [("X", exQ1)]) ∧
      (("X", exQ1.datetime), updateQuote exRowA exQ1) ∈ add_rows exF2 [("X", exQ1)] ∧
      (∀ r : Row, (("X", exQ1.datetime), r) ∈ add_rows exF2 [("X", exQ1)] →
        r.extra = exRowA.extra) ∧
      (add_rows exF2 [("X", exQ1)]).length = exF2.length) :=
  ⟨by decide, by decide,
    add_rows_existing_key_preserves_other_columns exF2 "X" exQ1 exRowA
      (by decide) (by decide)⟩

/-- C3: the claim fails on the code.  `relative_strength_index` raises
`TypeError` on every call (line 192 deletes an item from the builtin
`locals` function object), so no RSI value in [0, 100] is ever produced;
moreover the formula at line 227 as written, `100 - ((100 / 1) + rs)`, is
`-rs`, which is negative for any positive relative strength, and the
edge-case branch at line 230 tests the RSI value against 0 rather than
`avg_down`. -/
theorem relative_strength_index_always_raises :
    (∀ (period : Nat) (method : String) (f : Frame),
      relative_strength_index period method f
        = Except.error PyError.typeError) ∧
    rsi_line230 (rsi_line227 3) = -3 ∧ rsi_line230 (rsi_line227 3) < 0 := by
  have h227 : rsi_line227 3 = -3 := by
    unfold rsi_line227
    norm_num
  refine ⟨fun _ _ _ => rfl, ?_, ?_⟩
  · rw [h227]
    unfold rsi_line230
    norm_num
  · rw [h227]
    unfold rsi_line230
    norm_num

/-- C4: the claim fails on the code.  `simple_moving_average` raises
`TypeError` on every call (line 276 calls itself without the required
`period` argument while registering), so no `sma` column is ever written;
the rolling-mean computation of the unreachable line 280, modelled as
`rollingMean`, would have matched the claimed window semantics, as the
spec's worked example `[10, 10, 10, 12, 8]` with period 3 shows. -/
theorem simple_moving_average_always_raises :
    (∀ (period : Nat) (f : Frame),
      simple_moving_average period f = Except.error PyError.typeError) ∧
    rollingMean 3 [10, 10, 10, 12, 8]
      = [none, none, some 10, some (32 / 3), some 10] := by
  refine ⟨fun _ _ => rfl, ?_⟩
  unfold rollingMean
  norm_num [List.range_succ]

/-- C5: the claim fails on the code.  `exponential_moving_average` raises
`TypeError` on every call (lines 322–324 call the method itself without the
required `period` argument while registering), and the `alpha` parameter is
never read: the outcome is identical for every `alpha`, but only because
every call fails before computing anything. -/
theorem exponential_moving_average_always_raises :
    (∀ (period : Nat) (alpha : Rat) (f : Frame),
      exponential_moving_average period alpha f
        = Except.error PyError.typeError) ∧
    (∀ (period : Nat) (alpha1 alpha2 : Rat) (f : Frame),
      exponential_moving_average period alpha1 f
        = exponential_moving_average period alpha2 f) :=
  ⟨fun _ _ _ => rfl, fun _ _ _ _ => rfl⟩

/-- C7: `StockFrame._check_signals` (body `pass`) returns `None` for every
rule set and store — no event and no error, including for instruments with
zero bars — but the evaluation entry point `Indicator.check_singals` raises
`AttributeError` unconditionally, so signal evaluation as a whole does
raise, contradicting the claim. -/
theorem check_signals_returns_none_but_entry_point_raises :
    (∀ (indicators : List (String × SignalRule)) (f : Frame),
      _check_signals indicators f = none) ∧
    (∀ (signals : List (String × SignalRule)) (f : Frame),
      check_singals signals f = Except.error PyError.attributeError) :=
  ⟨fun _ _ => rfl, fun _ _ => rfl⟩

/-- C8: registration is indeed last-write-wins (re-registering an output
column name replaces the stored definition), but `refresh` never recomputes
anything: on every non-empty registry it raises `AttributeError` at line 344
(`self._current_indicators.indicator`), contradicting the claim's refresh
half. -/
theorem register_replaces_but_refresh_raises :
    (∀ (reg : List (String × IndicatorEntry)) (name : String)
      (e1 e2 : IndicatorEntry),
      registerIndicator (registerIndicator reg name e1) name e2
        = registerIndicator reg name e2) ∧
    (∀ (e : String × IndicatorEntry) (reg : List (String × IndicatorEntry)),
      refresh (e :: reg) = Except.error PyError.attributeError) :=
  ⟨fun reg name e1 e2 => dictSet_dictSet reg name e1 e2, fun _ _ => rfl⟩

/-- C9: indicator computation never leaks across instruments.  All indicator
columns are produced by the `groupby(symbol)[column].transform(per-group
lambda)` pattern, so for any two stores holding identical bars for
instrument `a` — however much the bars of other instruments differ — any
per-group computation, and in particular the rolling mean of line 280 and
the diff of line 154, yields identical column values on `a`'s rows. -/
theorem transform_no_cross_instrument_leakage (f1 f2 : Frame) (a : Symbol)
    (h : symbol_groups f1 a = symbol_groups f2 a) :
    (∀ (g : List Rat → List (Option Rat)) (col : Row → Rat),
      transformColumn g col f1 a = transformColumn g col f2 a) ∧
    (∀ period : Nat,
      transformColumn (rollingMean period) Row.close f1 a
        = transformColumn (rollingMean period) Row.close f2 a) ∧
    transformColumn diffColumn Row.close f1 a
      = transformColumn diffColumn Row.close f2 a := by
  have hcol : ∀ col : Row → Rat, groupColumn col f1 a = groupColumn col f2 a := by
    intro col
    unfold groupColumn
    rw [h]
  refine ⟨?_, ?_, ?_⟩
  · intro g col
    unfold transformColumn
    rw [hcol col]
  · intro period
    unfold transformColumn
    rw [hcol Row.close]
  · unfold transformColumn
    rw [hcol Row.close]

/-- C9 witness: the theorem applied to `exF2` and `exFB`, two frames equal on
instrument `"X"` that differ in instrument `"B"`, instantiated at the
rolling mean of period 3 over the close column. -/
theorem transform_no_cross_instrument_leakage_witness :
    symbol_groups exF2 "X" = symbol_groups exFB "X" ∧
    transformColumn (rollingMean 3) Row.close exF2 "X"
      = transformColumn (rollingMean 3) Row.close exFB "X" :=
  ⟨by decide,
    (transform_no_cross_instrument_leakage exF2 exFB "X" (by decide)).2.1 3⟩

end Autotrader
